import Mathlib

/-!
Verification development for the IranTrainBot repository.

The definitions below are a shallow embedding of the Python source:

* `src/train_scraper.py` : `AlibabaTrainScraper.get_trains_for_date`,
  `AlibabaTrainScraper.collect_trains`
* `src/flight_scraper.py` : `AlibabaFlightScraper.get_flights_for_date`,
  `AlibabaFlightScraper.collect_flights`
* `src/bot.py` : `TelegramBot.notify_user` (filter, sort, pagination,
  rendering), `TelegramBot.clear_search_state`, and the
  `origin:`/`destination:` text-command handling in
  `TelegramBot.process_messages`.

Conventions: Python dict items become a record with `Option` fields (a
`none` field models a key that is absent, or whose value is `None`, since
the two lead to the same control flow in every code path modelled here);
a Python exception that escapes to an enclosing handler becomes an
`Option`-valued function returning `none`; calendar dates are modelled by
their ordinal number (the `%Y-%m-%d` parse used by the source is an
order-isomorphism onto calendar dates); the external provider is a
parameter `fetch : Nat → List Item` giving the normalized items for a
date.
-/

/-- One search-result dict, as built by `get_trains_for_date`
(`src/train_scraper.py` lines 72-80: keys origin, destination, departure,
seat, price) or by `get_flights_for_date` (`src/flight_scraper.py` lines
124-141: keys origin, destination, airlineCode, flightNumber,
leaveDateTime, arrivalDateTime, priceAdult, seat, ...).  Fields that no
modelled code path ever reads (priceChild, priceInfant, class, classType,
status, classTypeName) are elided.  `trainType` is read by the renderer
with a `.get` default. -/
structure Item where
  trainNumber : Option String := none
  trainType : Option String := none
  flightNumber : Option String := none
  airlineCode : Option String := none
  leaveDateTime : Option String := none
  arrivalDateTime : Option String := none
  priceAdult : Option Int := none
  seat : Option Int := none
  origin : Option String := none
  destination : Option String := none
  departure : Option String := none
  price : Option Int := none
  deriving DecidableEq, Repr

/-- The item shape produced by `get_trains_for_date`
(`src/train_scraper.py` lines 72-80): only the keys origin, destination,
departure, seat, price are ever set; in particular no `trainNumber`,
`leaveDateTime`, `priceAdult` or `seat`-independent keys exist on a
train item. -/
def mkTrainItem (origin destination departure : Option String)
    (seat : Option Int) (price : Option Int) : Item :=
  { origin := origin, destination := destination, departure := departure,
    seat := seat, price := price }

/-! ### Polling loops (`collect_trains`, `collect_flights`)

Both inner date loops have the same body: fetch a date, append the
result to the instance-level accumulator (`self.trains_info` /
`self.flights_info`), and push a copy of the whole accumulator onto the
queue whenever it is non-empty.  `sweep` renders one pass over the date
list with the stop signal never set (the interesting case for the
claims), returning the trace of fetched dates and the list of pushed
batches. -/

/-- One pass of the inner date loop of `collect_trains`
(`src/train_scraper.py` lines 95-103) and of the single loop of
`collect_flights` (`src/flight_scraper.py` lines 151-157), with the stop
signal never set.  `acc` is the instance accumulator the fetch appends
to; the push condition is on the whole accumulator, and the pushed batch
is a copy of the whole accumulator. -/
def sweep (fetch : Nat → List Item) : List Nat → List Item →
    List Nat × List (List Item)
  | [], _ => ([], [])
  | d :: ds, acc =>
    let acc' := acc ++ fetch d
    let rest := sweep fetch ds acc'
    (d :: rest.1, if acc' = [] then rest.2 else acc' :: rest.2)

/-- `collect_trains` (`src/train_scraper.py` lines 85-105) with the stop
signal never set, truncated to `fuel` outer cycles: each cycle clears
the accumulator (`self.trains_info.clear()`) and then runs the inner
date loop from the start date again.  Returns (fetch trace, pushes). -/
def collect_trains (fetch : Nat → List Item) (dates : List Nat) :
    Nat → List Nat × List (List Item)
  | 0 => ([], [])
  | n + 1 =>
    let cycle := sweep fetch dates []
    let rest := collect_trains fetch dates n
    (cycle.1 ++ rest.1, cycle.2 ++ rest.2)

/-- `collect_flights` (`src/flight_scraper.py` lines 144-158) with the
stop signal never set: a single pass over the dates (the function has no
outer cycle loop; after the last date it logs completion and returns).
The accumulator `self.flights_info` starts empty and is never cleared. -/
def collect_flights (fetch : Nat → List Item) (dates : List Nat) :
    List Nat × List (List Item) :=
  sweep fetch dates []

/-- The spec text of claim C2, written from the words of the spec for
comparison with the source-derived `sweep`: each date that yields at
least one item is pushed as one batch holding exactly the items of that date;
dates yielding zero items are not pushed. -/
def specPerDatePushes (fetch : Nat → List Item) (dates : List Nat) :
    List (List Item) :=
  dates.filterMap (fun d => if fetch d = [] then none else some (fetch d))

/-- The accumulation of everything fetched for the first `k` dates of a
sweep: what the instance accumulator holds after the k-th date when it
started the sweep empty. -/
def prefixFetch (fetch : Nat → List Item) (dates : List Nat) (k : Nat) :
    List Item :=
  ((dates.take k).map fetch).flatten

/-! ### Per-date fetch validation (claim C8)

`get_flights_for_date` (`src/flight_scraper.py` lines 67-79) parses the
requested date, compares it with the current UTC date, and returns
without issuing any provider request when the requested date is earlier.
`get_trains_for_date` (`src/train_scraper.py` lines 54-83) posts the
provider request unconditionally; it contains no date comparison.  Both
models return the list of provider requests issued (by date) together
with the items appended to the accumulator. -/

/-- `get_flights_for_date`, date-validation shape: reject (log, return
empty, no provider request) when the date is before the provider
reference date `today`. -/
def get_flights_for_date (today : Nat) (provider : Nat → List Item)
    (d : Nat) : List Nat × List Item :=
  if d < today then ([], []) else ([d], provider d)

/-- `get_trains_for_date`, date-validation shape: no validation exists in
the source; the provider request is issued for every date. -/
def get_trains_for_date (provider : Nat → List Item) (d : Nat) :
    List Nat × List Item :=
  ([d], provider d)

/-! ### Delivery Loop: filter and sort (`notify_user`, `src/bot.py` lines 736-781)

For each dequeued batch the loop builds `valid_items`: per item it first
checks the search kind (`is_train` tests whether the key `trainNumber` is present), skipping
mismatches before anything else is read; then computes price
(int of the `priceAdult` value, default 0) and seats (the `seat` value, default 0);
then extracts the departure hour from the `leaveDateTime` value (ISO parse
with a string-slicing fallback, both of which can raise an exception
that escapes to the loop-wide handler at line 880); then applies the
price, seat and time filters with a `continue` on each mismatch; and
finally appends the item when `seats > 0`.  The surviving items are
sorted by the key pair (`leaveDateTime` value, `priceAdult` value) (Python list
sort precomputes the key for every element, so a surviving item lacking
the `priceAdult` key aborts the batch as well). -/

inductive SearchKind | train | flight
  deriving DecidableEq, Repr

inductive TimeBucket | morning | afternoon | evening
  deriving DecidableEq, Repr

/-- The per-chat filter settings read by `notify_user`
(`price_filters` / `seat_filters` / `time_filters`, `none` when unset).
The callback handlers only ever store `k * 10000000` (k in 1..5) as a
price limit and `k` (k in 1..5) as a seat minimum, so stored limits are
always positive; Python falsiness of 0 is still modelled faithfully in
`itemStep`. -/
structure Filters where
  priceLimit : Option Int := none
  seatMin : Option Int := none
  timeFilter : Option TimeBucket := none
  deriving DecidableEq, Repr

/-- Python `s.split(c)`: split on every occurrence of the separator,
keeping empty pieces; always returns at least one piece. -/
def splitOnCharAux (c : Char) : List Char → List Char → List (List Char)
  | [], cur => [cur.reverse]
  | a :: as, cur =>
    if a = c then cur.reverse :: splitOnCharAux c as []
    else splitOnCharAux c as (a :: cur)

def splitOnChar (c : Char) (l : List Char) : List (List Char) :=
  splitOnCharAux c l []

/-- Python `int(s)` restricted to the non-negative digit strings that
occur in timestamps (sign, whitespace and underscore forms never arise
from slicing a timestamp): `some` exactly when the string is non-empty
and all digits. -/
def pyInt (l : List Char) : Option Nat :=
  if l ≠ [] ∧ l.all Char.isDigit then
    some (l.foldl (fun n c => n * 10 + (c.toNat - 48)) 0)
  else none

/-- Shape test for a date-only ISO string `YYYY-MM-DD` (which
`datetime.fromisoformat` accepts, yielding hour 0).  Day-in-month
validity beyond the 1..31 range is elided. -/
def isDateOnly : List Char → Bool
  | [y1, y2, y3, y4, s1, m1, m2, s2, d1, d2] =>
    y1.isDigit && y2.isDigit && y3.isDigit && y4.isDigit &&
    s1 = '-' && s2 = '-' && m1.isDigit && m2.isDigit &&
    d1.isDigit && d2.isDigit &&
    (let m := (m1.toNat - 48) * 10 + (m2.toNat - 48)
     let d := (d1.toNat - 48) * 10 + (d2.toNat - 48)
     1 ≤ m && m ≤ 12 && 1 ≤ d && d ≤ 31)
  | _ => false

/-- Departure-hour extraction (`src/bot.py` lines 749-754):
datetime.fromisoformat of the value with Z replaced by +00:00, taking .hour, falling
back on `ValueError` to: split on T, take piece 1, keep five characters, split on the colon, int of the head.
For any string of the form prefix, then T, then rest the two paths agree
on the hour (the primary parse succeeds only when `rest` starts with a
valid two-digit hour, which the slice then also yields), so both are
modelled by the slice; a date-only string is the remaining shape the
primary parse accepts, with hour 0.  `none` models the exception
(`IndexError` from indexing piece 1 when there is no T separator, `ValueError` from
`int`, `KeyError`/`AttributeError` for a missing value), which escapes
to the loop-wide handler. -/
def extractHour (l : List Char) : Option Nat :=
  if isDateOnly l then some 0
  else
    match splitOnChar 'T' l with
    | _ :: t :: _ => pyInt ((splitOnChar ':' (t.take 5)).headD [])
    | _ => none

def hourOfItem (x : Item) : Option Nat :=
  (x.leaveDateTime.map String.toList).bind extractHour

/-- The `is_train` presence test of the key `trainNumber` and the search-kind test
(`src/bot.py` lines 741-744); `k` is `current_search_type`, read once
when the loop starts. -/
def matchesKind (k : Option SearchKind) (x : Item) : Bool :=
  (k = some .train && x.trainNumber.isSome) ||
  (k = some .flight && !x.trainNumber.isSome)

def bucketMem (b : TimeBucket) (h : Nat) : Bool :=
  match b with
  | .morning => 6 ≤ h && h < 12
  | .afternoon => 12 ≤ h && h < 18
  | .evening => 18 ≤ h && h < 24

/-- One iteration of the `for item in new_items` filter loop
(`src/bot.py` lines 740-777).  `none` models the exception that aborts
the whole batch; `some none` models `continue`/not-appended; `some
(some x)` models `valid_items.append(item)`. -/
def itemStep (f : Filters) (k : Option SearchKind) (x : Item) :
    Option (Option Item) :=
  if !matchesKind k x then some none
  else
    let price := x.priceAdult.getD 0
    let seats := x.seat.getD 0
    match hourOfItem x with
    | none => none
    | some h =>
      if (match f.priceLimit with
          | some fl => fl ≠ 0 && price ≥ fl
          | none => false) then some none
      else if (match f.seatMin with
          | some sm => sm ≠ 0 && seats < sm
          | none => false) then some none
      else if (match f.timeFilter with
          | some b => !bucketMem b h
          | none => false) then some none
      else if seats > 0 then some (some x)
      else some none

/-- The whole `valid_items` construction: `none` as soon as one item
raises. -/
def filterValid (f : Filters) (k : Option SearchKind) :
    List Item → Option (List Item)
  | [] => some []
  | x :: xs =>
    match itemStep f k x with
    | none => none
    | some none => filterValid f k xs
    | some (some y) => (filterValid f k xs).map (y :: ·)

/-- The sort key comparison: Python tuple order on
(`leaveDateTime` value, `priceAdult` value), i.e. code-point lexicographic
order on the timestamp string with the integer price as tie-break. -/
def lexLtN : List Nat → List Nat → Bool
  | [], [] => false
  | [], _ :: _ => true
  | _ :: _, [] => false
  | a :: as, b :: bs => if a < b then true else if b < a then false else lexLtN as bs

def strKey (s : String) : List Nat := s.toList.map Char.toNat

def keyLE (x y : Item) : Bool :=
  let lx := strKey (x.leaveDateTime.getD "")
  let ly := strKey (y.leaveDateTime.getD "")
  if lexLtN lx ly then true
  else if lexLtN ly lx then false
  else x.priceAdult.getD 0 ≤ y.priceAdult.getD 0

/-- Insertion sort by `keyLE`: a sorted permutation, which is all the
ordering contract of `valid_items.sort(key=...)` requires (Python
timsort is also stable, but no claim depends on stability). -/
def insertItem (x : Item) : List Item → List Item
  | [] => [x]
  | y :: ys => if keyLE x y then x :: y :: ys else y :: insertItem x ys

def sortItems : List Item → List Item
  | [] => []
  | x :: xs => insertItem x (sortItems xs)

/-- The complete filter/sort step for one dequeued batch (`src/bot.py`
lines 736-781): build `valid_items`, abort on an escaped exception
(including a `KeyError` while computing sort keys for a surviving item
without the `priceAdult` key), sort. -/
def filterBatch (f : Filters) (k : Option SearchKind) (batch : List Item) :
    Option (List Item) :=
  (filterValid f k batch).bind (fun valid =>
    if valid.all (fun x => x.priceAdult.isSome) then some (sortItems valid)
    else none)

/-- The loop-wide handler (`src/bot.py` lines 880-882): on an exception
during the filter step nothing is appended to the in-memory buffer
`current_items`; the already-dequeued batch is lost. -/
def processBatch (f : Filters) (k : Option SearchKind)
    (buffer : List Item) (batch : List Item) : List Item :=
  match filterBatch f k batch with
  | some valid => buffer ++ valid
  | none => buffer

/-- `KLE x y`: the ordering contract relation, x precedes-or-equals y in
the (departure timestamp, price) order. -/
def KLE (x y : Item) : Prop := keyLE x y = true

/-! ### Pagination (`notify_user`, `src/bot.py` lines 787-876)

With a non-empty buffer and `waiting_for_more` false, the loop takes
`batch = current_items[:batch_size]` with `batch_size = 10`, sends the
items numbered by `enumerate(batch, start=len(pending_flights)+1)`,
extends `pending_flights` by the batch and drops the batch from
`current_items`; each further page is sent after the user presses More
(which clears `waiting_for_more`).  Delivering a buffer therefore
chunks it into pages of 10 with continuing numbering. -/

/-- `batch_size` in `notify_user`. -/
def pageSize : Nat := 10

/-- Fuel-indexed chunking (fuel makes the recursion structural; any
fuel at least the list length gives the chunking). -/
def chunkPagesF : Nat → List Item → List (List Item)
  | 0, _ => []
  | _ + 1, [] => []
  | n + 1, x :: xs =>
    (x :: xs).take pageSize :: chunkPagesF n ((x :: xs).drop pageSize)

/-- The pages of one buffer: successive `current_items[:10]` slices. -/
def chunkPages (l : List Item) : List (List Item) :=
  chunkPagesF l.length l

/-- `enumerate(batch, start=s)`. -/
def numberFrom (s : Nat) : List Item → List (Nat × Item)
  | [] => []
  | x :: xs => (s, x) :: numberFrom (s + 1) xs

/-- Deliver a list of pages in order, numbering each page from one past
the count of already-delivered items (`len(pending_flights) + 1`) and
growing that count by the page length. -/
def deliverPages (p0 : Nat) : List (List Item) → List (Nat × Item)
  | [] => []
  | pg :: rest => numberFrom (p0 + 1) pg ++ deliverPages (p0 + pg.length) rest

/-- Complete delivery of one buffer of filtered items, starting with
`p0` items already delivered this session. -/
def deliverBuffer (p0 : Nat) (l : List Item) : List (Nat × Item) :=
  deliverPages p0 (chunkPages l)

/-- The last of a list of pages (empty when there are none). -/
def lastPage : List (List Item) → List Item
  | [] => []
  | [p] => p
  | _ :: q :: rest => lastPage (q :: rest)

/-! ### Per-item rendering (`notify_user`, `src/bot.py` lines 792-854)

Each page item is rendered inside a per-item try/except: any exception
is logged and the loop continues with the next item.  Rendering reads
the `leaveDateTime` and `arrivalDateTime` values (formatting both
through the ISO parse with the same slicing fallback; for the timestamp
shapes the provider emits, both paths yield the date before the T
and the first five characters after it), the `origin`,
`destination`, `priceAdult` and `seat` values and the
kind-specific fields: the `trainType` value (default Standard) and
the `trainNumber` value for trains, the `airlineCode` and
`flightNumber` values for flights.  A missing key raises `KeyError`,
which the per-item handler catches. -/

structure Rendered where
  depDate : List Char
  depTime : List Char
  arrTime : List Char
  origin : String
  destination : String
  price : Int
  seats : Int
  kindFields : String × String
  deriving DecidableEq, Repr

/-- Date and time formatting of the two timestamps; `none` models the
exception when a timestamp has no T separator (date-only strings,
which the primary parser would format with time 00:00, do not occur in
provider batches and are elided). -/
def renderTimes (leave arr : List Char) :
    Option (List Char × List Char × List Char) :=
  match splitOnChar 'T' leave, splitOnChar 'T' arr with
  | ld :: lt :: _, _ :: at2 :: _ => some (ld, lt.take 5, at2.take 5)
  | _, _ => none

/-- One rendering attempt (`src/bot.py` lines 794-848); `none` models a
per-item exception, after which the send loop continues with the next
item. -/
def renderItem (x : Item) : Option Rendered :=
  match x.leaveDateTime, x.arrivalDateTime with
  | some leave, some arr =>
    match renderTimes leave.toList arr.toList with
    | none => none
    | some (dd, dt, at2) =>
      match x.origin, x.destination, x.priceAdult with
      | some o, some dst, some p =>
        if x.trainNumber.isSome then
          match x.trainNumber, x.seat with
          | some tn, some s =>
            some ⟨dd, dt, at2, o, dst, p, s, (x.trainType.getD "Standard", tn)⟩
          | _, _ => none
        else
          match x.airlineCode, x.flightNumber, x.seat with
          | some ac, some fn, some s =>
            some ⟨dd, dt, at2, o, dst, p, s, (ac, fn)⟩
          | _, _, _ => none
      | _, _, _ => none
  | _, _ => none

/-- The page send loop (`src/bot.py` lines 792-854): render each
numbered item, skipping (with a log) any item whose rendering raises,
and continue with the rest of the page. -/
def sendPage : List (Nat × Item) → List (Nat × Rendered)
  | [] => []
  | (i, x) :: rest =>
    match renderItem x with
    | some r => (i, r) :: sendPage rest
    | none => sendPage rest

/-! ### Session state and Stop (`clear_search_state`, `src/bot.py` lines 290-316)

`clear_search_state` sets the per-chat stop event, joins the scraper
thread and the notify thread with a 5-second timeout each (logging a
warning when a join times out and proceeding regardless), drains the
queue with `get_nowait` until empty, resets `pending_flights` to `[]`,
`user_flight_index` to 0, `waiting_for_more` to `False`,
`current_search_type` to `None`, and finally stores a fresh, cleared
`threading.Event` in `stop_events[chat_id]`. -/

structure Session where
  stopSet : Bool
  queue : List (List Item)
  pendingFlights : List Item
  userFlightIndex : Nat
  waitingForMore : Bool
  currentSearchType : Option SearchKind
  deriving DecidableEq, Repr

/-- The session-state effect of `clear_search_state`: the queue is
drained, the pagination state is reset, and the stop event visible in
`stop_events[chat_id]` at return time is the fresh cleared one. -/
def clear_search_state (_s : Session) : Session :=
  { stopSet := false, queue := [], pendingFlights := [],
    userFlightIndex := 0, waitingForMore := false,
    currentSearchType := none }

/-! ### Interleaving of Stop with a running delivery loop (claim C3)

`notify_user` checks `self.stop_events[chat_id].is_set()` only at the
top of its while loop (`src/bot.py` line 726); the inner
`for i, item in enumerate(batch, ...)` send loop (lines 792-854)
contains no stop check, and each send is a blocking network call.
`clear_search_state` joins the notify thread with `timeout=5` and then
replaces the dict entry with a fresh cleared event, which the loop
top reads on its next iteration.  The model below interleaves the
delivery loop, at per-item granularity, with the steps of Stop. -/

structure DeliveryState where
  stopSet : Bool
  queue : List (List Item)
  sending : List Item
  buffer : List Item
  delivered : List Item
  exited : Bool
  deriving DecidableEq, Repr

inductive DStep
  /-- Stop begins: `self.stop_events[chat_id].set()`. -/
  | setSignal
  /-- Stop finishes after the bounded joins: the queue is drained and a
  fresh cleared event is stored in `stop_events[chat_id]` (reached with
  the loop still alive only when a join timed out). -/
  | finishStop
  /-- The delivery loop sends one item of the page in flight (no stop
  check in the send loop). -/
  | sendOne
  /-- The delivery loop reaches its loop top with no page in flight and
  exits if the event currently in the dict is set. -/
  | loopTop
  deriving DecidableEq, Repr

def dstep : DStep → DeliveryState → DeliveryState
  | .setSignal, s => { s with stopSet := true }
  | .finishStop, s => { s with stopSet := false, queue := [] }
  | .sendOne, s =>
    if s.exited then s
    else
      match s.sending with
      | x :: r => { s with sending := r, delivered := s.delivered ++ [x] }
      | [] => s
  | .loopTop, s =>
    if s.exited then s
    else
      match s.sending with
      | _ :: _ => s
      | [] =>
        if s.stopSet then { s with exited := true }
        else
          match s.buffer with
          | x :: rest =>
            { s with sending := (x :: rest).take pageSize
                     buffer := (x :: rest).drop pageSize }
          | [] =>
            match s.queue with
            | b :: q => { s with buffer := b, queue := q }
            | [] => s

def runD (labels : List DStep) (s : DeliveryState) : DeliveryState :=
  labels.foldl (fun st lb => dstep lb st) s

/-! ### City table and the fuzzy `origin:`/`destination:` commands
(`src/bot.py` lines 68-78 and 920-942)

`process_messages` lowercases the whole message, splits off the part
after the colon, uppercases it, and scans the `TrainCity` enum in
declaration order: for each city it computes
`fuzz.ratio(city_input, name.upper())` and
`fuzz.ratio(city_input, code.upper())`, updating the running best on a
strict improvement.  The input is accepted iff a best city exists and
`highest_ratio > 80` (strictly); only then is the session origin (or
destination) overwritten with the matched code.  The external
similarity `fuzz.ratio` is a parameter of the model. -/

structure City where
  code : String
  name : String
  deriving DecidableEq, Repr

/-- The `TrainCity` enum, in declaration order. -/
def trainCities : List City :=
  [⟨"THR", "تهران"⟩, ⟨"IFN", "اصفهان"⟩, ⟨"RHD", "رشت"⟩, ⟨"TBZ", "تبریز"⟩,
   ⟨"EVN", "ایروان"⟩, ⟨"IST", "استانبول"⟩, ⟨"AZD", "یزد"⟩,
   ⟨"SYZ", "شیراز"⟩, ⟨"AWZ", "اهواز"⟩, ⟨"MHD", "مشهد"⟩]

/-- Python `.upper()` on the code-point list of a string (ASCII case
mapping; identity on the Persian names, as in the source). -/
def strUpper (s : String) : List Char := s.toList.map Char.toUpper

/-- One enum-scan step of the matcher: check the name ratio, then the
code ratio, each updating the running `(best_match, highest_ratio)` on
a strict improvement. -/
def cityScanStep (ratio : List Char → List Char → Nat) (input : List Char)
    (acc : Option City × Nat) (c : City) : Option City × Nat :=
  let rn := ratio input (strUpper c.name)
  let acc1 := if rn > acc.2 then (some c, rn) else acc
  let rc := ratio input (strUpper c.code)
  if rc > acc1.2 then (some c, rc) else acc1

def bestCity (ratio : List Char → List Char → Nat) (input : List Char) :
    Option City × Nat :=
  trainCities.foldl (cityScanStep ratio input) (none, 0)

/-- The `origin:<city>` handler body: the part after the colon is
already stripped; it is uppercased, fuzzily matched, and the origin is
overwritten exactly when a best match exists with ratio strictly above
80.  Returns (new origin, accepted). -/
def processOrigin (ratio : List Char → List Char → Nat)
    (cityInput : String) (origin : String) : String × Bool :=
  match (bestCity ratio (cityInput.toList.map Char.toUpper)).1 with
  | some c =>
    if (bestCity ratio (cityInput.toList.map Char.toUpper)).2 > 80 then
      (c.code, true)
    else (origin, false)
  | none => (origin, false)

/-- The best similarity of the input against any city code or
localized name. -/
def maxRatio (ratio : List Char → List Char → Nat) (input : List Char) :
    List City → Nat
  | [] => 0
  | c :: cs =>
    max (max (ratio input (strUpper c.name)) (ratio input (strUpper c.code)))
      (maxRatio ratio input cs)

/-! ### Concrete fixtures for evaluation -/

def noFilters : Filters := {}

/-- Scraper-shaped train items (the only shape `get_trains_for_date`
produces). -/
def tItemA : Item :=
  mkTrainItem (some "تهران") (some "شیراز") (some "2025-03-20T08:00:00")
    (some 4) (some 4500000)

def tItemB : Item :=
  mkTrainItem (some "تهران") (some "شیراز") (some "2025-03-20T13:10:00")
    (some 2) (some 3900000)

def tItemC : Item :=
  mkTrainItem (some "تهران") (some "شیراز") (some "2025-03-20T21:40:00")
    (some 6) (some 5200000)

def fItemA : Item :=
  { flightNumber := some "IR700", airlineCode := some "IR",
    leaveDateTime := some "2025-03-20T09:30:00",
    arrivalDateTime := some "2025-03-20T10:45:00",
    priceAdult := some 12000000, seat := some 3,
    origin := some "THR", destination := some "SYZ" }

def fItemB : Item :=
  { flightNumber := some "W561", airlineCode := some "W5",
    leaveDateTime := some "2025-03-20T18:20:00",
    arrivalDateTime := some "2025-03-20T19:35:00",
    priceAdult := some 9000000, seat := some 2,
    origin := some "THR", destination := some "SYZ" }

/-- A flight item whose `leaveDateTime` defeats both the ISO parse and
the slicing fallback (no T separator). -/
def badLeave : Item :=
  { flightNumber := some "IR999", airlineCode := some "IR",
    leaveDateTime := some "junk",
    arrivalDateTime := some "2025-03-20T12:00:00",
    priceAdult := some 8000000, seat := some 1,
    origin := some "THR", destination := some "SYZ" }

/-- Scenario A provider: three trains on the first date, none on the
second. -/
def c1Fetch : Nat → List Item :=
  fun d => if d = 0 then [tItemA, tItemB, tItemC] else []

def c2Fetch : Nat → List Item := fun d => if d = 0 then [fItemA] else []

def c7Fetch : Nat → List Item := fun _ => [fItemA]

def c8Provider : Nat → List Item := fun _ => [tItemA]

/-- A delivery loop mid-page: two items of the current page still to
send, one un-drained batch in the queue. -/
def c3Start : DeliveryState :=
  { stopSet := false, queue := [[fItemB]], sending := [fItemA, badLeave],
    buffer := [], delivered := [], exited := false }

def c3Exited : DeliveryState :=
  { stopSet := true, queue := [], sending := [], buffer := [fItemA],
    delivered := [fItemB], exited := true }

def c3Live : DeliveryState :=
  { stopSet := true, queue := [[fItemA]], sending := [], buffer := [],
    delivered := [], exited := false }

def c3Sess : Session :=
  { stopSet := false, queue := [], pendingFlights := [],
    userFlightIndex := 0, waitingForMore := false,
    currentSearchType := none }

def filtersW : Filters :=
  { priceLimit := some 20000000, seatMin := some 2,
    timeFilter := some TimeBucket.morning }

/-- Scenario C: a buffer of 23 matching items. -/
def c6Buf : List Item := List.replicate 23 fItemA

/-- The values of the external similarity `fuzz.ratio` for the
uppercased input "TH" against the uppercased city codes and names of
the `TrainCity` enum, by the difflib formula round(200·M/(len1+len2))
with M the total matched length: "TH" vs "THR" gives 2·2/(2+3) = 0.8,
i.e. exactly 80; the codes sharing exactly one letter with "TH" (RHD,
TBZ, IST, MHD) give 2·1/5 = 40; the remaining codes and all Persian
names share no character, giving 0. -/
def ratioTH (_input c : List Char) : Nat :=
  if c = "THR".toList then 80
  else if c = "RHD".toList ∨ c = "TBZ".toList ∨ c = "IST".toList ∨
      c = "MHD".toList then 40
  else 0

/-- A similarity reaching 81 on the code THR only. -/
def ratio81 (_input c : List Char) : Nat :=
  if c = "THR".toList then 81 else 0

/-! ### Theorems -/

theorem sweep_trace (fetch : Nat → List Item) :
    ∀ (dates : List Nat) (acc : List Item),
      (sweep fetch dates acc).1 = dates := by
  intro dates
  induction dates with
  | nil => intro acc; rfl
  | cons d ds ih =>
    intro acc
    simp only [sweep, ih]

theorem prefixFetch_succ_cons (fetch : Nat → List Item) (d : Nat)
    (ds : List Nat) (k : Nat) :
    prefixFetch fetch (d :: ds) (k + 1) =
      fetch d ++ prefixFetch fetch ds k := by
  simp [prefixFetch, List.take_succ_cons]

/-- Every batch pushed during a sweep is a non-empty prefix
accumulation: the concatenation of everything fetched for the first k
dates, prefixed by whatever the accumulator already held. -/
theorem sweep_mem_pushes (fetch : Nat → List Item) :
    ∀ (ds : List Nat) (acc b : List Item),
      b ∈ (sweep fetch ds acc).2 →
      b ≠ [] ∧ ∃ k, 0 < k ∧ k ≤ ds.length ∧
        b = acc ++ prefixFetch fetch ds k := by
  intro ds
  induction ds with
  | nil => intro acc b hb; cases hb
  | cons d ds ih =>
    intro acc b hb
    simp only [sweep] at hb
    by_cases h : acc ++ fetch d = []
    · rw [if_pos h] at hb
      obtain ⟨hne, k, hk0, hkle, hbk⟩ := ih (acc ++ fetch d) b hb
      refine ⟨hne, k + 1, Nat.succ_pos k, by simpa using Nat.succ_le_succ hkle, ?_⟩
      rw [prefixFetch_succ_cons, hbk, List.append_assoc]
    · rw [if_neg h] at hb
      rcases List.mem_cons.mp hb with hb | hb
      · refine ⟨hb ▸ h, 1, Nat.one_pos, by simp, ?_⟩
        rw [hb, prefixFetch_succ_cons]
        simp [prefixFetch]
      · obtain ⟨hne, k, hk0, hkle, hbk⟩ := ih (acc ++ fetch d) b hb
        refine ⟨hne, k + 1, Nat.succ_pos k, by simpa using Nat.succ_le_succ hkle, ?_⟩
        rw [prefixFetch_succ_cons, hbk, List.append_assoc]

/-- Conversely, after every date whose processing leaves the accumulator
non-empty, that accumulator is pushed: every non-empty prefix
accumulation occurs among the pushed batches. -/
theorem sweep_pushes_mem (fetch : Nat → List Item) :
    ∀ (ds : List Nat) (acc : List Item) (k : Nat), 0 < k → k ≤ ds.length →
      acc ++ prefixFetch fetch ds k ≠ [] →
      acc ++ prefixFetch fetch ds k ∈ (sweep fetch ds acc).2 := by
  intro ds
  induction ds with
  | nil =>
    intro acc k hk0 hkle _
    simp only [List.length_nil] at hkle
    omega
  | cons d ds ih =>
    intro acc k hk0 hkle hne
    obtain ⟨k, rfl⟩ : ∃ m, k = m + 1 := ⟨k - 1, by omega⟩
    rw [prefixFetch_succ_cons, ← List.append_assoc] at hne ⊢
    simp only [sweep]
    by_cases h : acc ++ fetch d = []
    · rw [if_pos h]
      rcases Nat.eq_zero_or_pos k with rfl | hk
      · simp only [prefixFetch, List.take_zero, List.map_nil,
          List.flatten_nil, List.append_nil] at hne
        exact absurd h hne
      · exact ih (acc ++ fetch d) k hk (by simpa using hkle) hne
    · rw [if_neg h]
      rcases Nat.eq_zero_or_pos k with rfl | hk
      · simp only [prefixFetch, List.take_zero, List.map_nil,
          List.flatten_nil, List.append_nil]
        exact List.mem_cons_self _ _
      · exact List.mem_cons_of_mem _
          (ih (acc ++ fetch d) k hk (by simpa using hkle) hne)

/-! ### Order lemmas for the sort key -/

theorem boolFalse_of_ne_true {b : Bool} (h : ¬b = true) : b = false := by
  cases b
  · rfl
  · exact absurd rfl h

theorem lexLtN_asymm : ∀ a b : List Nat,
    lexLtN a b = true → lexLtN b a = false := by
  intro a
  induction a with
  | nil => intro b h; cases b <;> simp [lexLtN] at h ⊢
  | cons x xs ih =>
    intro b h
    cases b with
    | nil => simp [lexLtN] at h
    | cons y ys =>
      simp only [lexLtN] at h ⊢
      by_cases hxy : x < y
      · rw [if_neg (show ¬y < x by omega), if_pos hxy]
      · rw [if_neg hxy] at h
        by_cases hyx : y < x
        · rw [if_pos hyx] at h; simp at h
        · rw [if_neg hyx] at h
          rw [if_neg hyx, if_neg hxy]
          exact ih ys h

theorem lexLtN_eq_of_not_lt : ∀ a b : List Nat,
    lexLtN a b = false → lexLtN b a = false → a = b := by
  intro a
  induction a with
  | nil => intro b h1 h2; cases b <;> simp [lexLtN] at h1 ⊢
  | cons x xs ih =>
    intro b h1 h2
    cases b with
    | nil => simp [lexLtN] at h2
    | cons y ys =>
      simp only [lexLtN] at h1 h2
      by_cases hxy : x < y
      · rw [if_pos hxy] at h1; simp at h1
      · by_cases hyx : y < x
        · rw [if_pos hyx] at h2; simp at h2
        · rw [if_neg hxy, if_neg hyx] at h1
          rw [if_neg hyx, if_neg hxy] at h2
          have : x = y := by omega
          rw [this, ih ys h1 h2]

theorem lexLtN_trans : ∀ a b c : List Nat,
    lexLtN a b = true → lexLtN b c = true → lexLtN a c = true := by
  intro a
  induction a with
  | nil =>
    intro b c h1 h2
    cases b with
    | nil => simp [lexLtN] at h1
    | cons y ys => cases c with
      | nil => simp [lexLtN] at h2
      | cons z zs => simp [lexLtN]
  | cons x xs ih =>
    intro b c h1 h2
    cases b with
    | nil => simp [lexLtN] at h1
    | cons y ys =>
      cases c with
      | nil => simp [lexLtN] at h2
      | cons z zs =>
        simp only [lexLtN] at h1 h2 ⊢
        by_cases hxy : x < y
        · by_cases hyz : y < z
          · rw [if_pos (by omega)]
          · rw [if_neg hyz] at h2
            by_cases hzy : z < y
            · rw [if_pos hzy] at h2; simp at h2
            · have : y = z := by omega
              rw [if_pos (by omega)]
        · rw [if_neg hxy] at h1
          by_cases hyx : y < x
          · rw [if_pos hyx] at h1; simp at h1
          · have hxe : x = y := by omega
            rw [if_neg hyx] at h1
            by_cases hyz : y < z
            · rw [if_pos (by omega)]
            · rw [if_neg hyz] at h2
              by_cases hzy : z < y
              · rw [if_pos hzy] at h2; simp at h2
              · rw [if_neg hzy] at h2
                rw [if_neg (by omega), if_neg (by omega)]
                exact ih ys zs h1 h2

theorem keyLE_total (x y : Item) : keyLE x y = true ∨ keyLE y x = true := by
  simp only [keyLE]
  by_cases h1 : lexLtN (strKey (x.leaveDateTime.getD ""))
      (strKey (y.leaveDateTime.getD "")) = true
  · left; rw [if_pos h1]
  · by_cases h2 : lexLtN (strKey (y.leaveDateTime.getD ""))
        (strKey (x.leaveDateTime.getD "")) = true
    · right; rw [if_pos h2]
    · rw [if_neg h1, if_neg h2, if_neg h2, if_neg h1]
      rcases Int.le_total (x.priceAdult.getD 0) (y.priceAdult.getD 0) with h | h
      · left; exact decide_eq_true h
      · right; exact decide_eq_true h

theorem lexLtN_irrefl : ∀ a : List Nat, lexLtN a a = false := by
  intro a
  induction a with
  | nil => rfl
  | cons x xs ih => simp [lexLtN, ih]

theorem keyLE_trans {x y z : Item} (h1 : keyLE x y = true)
    (h2 : keyLE y z = true) : keyLE x z = true := by
  simp only [keyLE] at h1 h2 ⊢
  set a := strKey (x.leaveDateTime.getD "") with ha
  set b := strKey (y.leaveDateTime.getD "") with hb
  set c := strKey (z.leaveDateTime.getD "") with hc
  by_cases hab : lexLtN a b = true
  · by_cases hbc : lexLtN b c = true
    · rw [if_pos (lexLtN_trans a b c hab hbc)]
    · by_cases hcb : lexLtN c b = true
      · rw [if_neg hbc, if_pos hcb] at h2; simp at h2
      · have hec : b = c := lexLtN_eq_of_not_lt b c
          (boolFalse_of_ne_true hbc) (boolFalse_of_ne_true hcb)
        rw [if_pos (hec ▸ hab)]
  · by_cases hba : lexLtN b a = true
    · rw [if_neg hab, if_pos hba] at h1; simp at h1
    · have hea : a = b := lexLtN_eq_of_not_lt a b
        (boolFalse_of_ne_true hab) (boolFalse_of_ne_true hba)
      rw [if_neg hab, if_neg hba] at h1
      by_cases hbc : lexLtN b c = true
      · rw [if_pos (hea ▸ hbc)]
      · by_cases hcb : lexLtN c b = true
        · rw [if_neg hbc, if_pos hcb] at h2; simp at h2
        · have hec : b = c := lexLtN_eq_of_not_lt b c
            (boolFalse_of_ne_true hbc) (boolFalse_of_ne_true hcb)
          rw [if_neg hbc, if_neg hcb] at h2
          have hac : lexLtN a c = false := by
            rw [hea, hec]; exact lexLtN_irrefl c
          have hca : lexLtN c a = false := by
            rw [hea, hec]; exact lexLtN_irrefl c
          rw [if_neg (by simp [hac]), if_neg (by simp [hca])]
          have p1 := of_decide_eq_true h1
          have p2 := of_decide_eq_true h2
          exact decide_eq_true (le_trans p1 p2)

theorem insertItem_perm (x : Item) (l : List Item) :
    List.Perm (insertItem x l) (x :: l) := by
  induction l with
  | nil => exact List.Perm.refl _
  | cons y ys ih =>
    simp only [insertItem]
    by_cases h : keyLE x y = true
    · rw [if_pos h]
    · rw [if_neg h]
      exact (ih.cons y).trans (List.Perm.swap x y ys)

theorem sortItems_perm (l : List Item) : List.Perm (sortItems l) l := by
  induction l with
  | nil => exact List.Perm.refl _
  | cons x xs ih => exact (insertItem_perm x (sortItems xs)).trans (ih.cons x)

theorem pairwise_insertItem (x : Item) {l : List Item}
    (h : l.Pairwise KLE) : (insertItem x l).Pairwise KLE := by
  induction l with
  | nil => simp [insertItem, List.pairwise_cons]
  | cons y ys ih =>
    rcases List.pairwise_cons.mp h with ⟨hy, hys⟩
    simp only [insertItem]
    by_cases hxy : keyLE x y = true
    · rw [if_pos hxy]
      refine List.pairwise_cons.mpr ⟨?_, h⟩
      intro z hz
      rcases List.mem_cons.mp hz with rfl | hz
      · exact hxy
      · exact keyLE_trans hxy (hy z hz)
    · rw [if_neg hxy]
      refine List.pairwise_cons.mpr ⟨?_, ih hys⟩
      intro z hz
      have hz' := (insertItem_perm x ys).mem_iff.mp hz
      rcases List.mem_cons.mp hz' with rfl | hz'
      · rcases keyLE_total z y with hk | hk
        · exact absurd hk hxy
        · exact hk
      · exact hy z hz'

theorem sortItems_pairwise (l : List Item) : (sortItems l).Pairwise KLE := by
  induction l with
  | nil => exact List.Pairwise.nil
  | cons x xs ih => exact pairwise_insertItem x ih

/-! ### Inversion lemmas for the filter step -/

/-- The only way the filter loop appends an item is to append the item
itself, unmodified. -/
theorem itemStep_append_self {f : Filters} {k : Option SearchKind}
    {x y : Item} (h : itemStep f k x = some (some y)) : y = x := by
  unfold itemStep at h
  by_cases hm : matchesKind k x
  · simp only [hm, Bool.not_true] at h
    rw [if_neg (by simp)] at h
    cases hh : hourOfItem x with
    | none => rw [hh] at h; cases h
    | some hr =>
      rw [hh] at h
      repeat' split at h
      all_goals simp_all
  · simp only [hm, Bool.not_false] at h
    rw [if_pos (by simp)] at h
    cases h

/-- Full inversion of one accepted filter iteration: an appended item
passed the kind check, had a parseable departure hour, and survived
every configured filter, with positive seat count. -/
theorem itemStep_accept {f : Filters} {k : Option SearchKind} {x : Item}
    (h : itemStep f k x = some (some x)) :
    matchesKind k x = true ∧
    (∀ fl, f.priceLimit = some fl → fl ≠ 0 → x.priceAdult.getD 0 < fl) ∧
    (∀ sm, f.seatMin = some sm → sm ≠ 0 → sm ≤ x.seat.getD 0) ∧
    (∀ b, f.timeFilter = some b →
      ∃ hr, hourOfItem x = some hr ∧ bucketMem b hr = true) ∧
    0 < x.seat.getD 0 := by
  unfold itemStep at h
  by_cases hm : matchesKind k x
  · refine ⟨hm, ?_⟩
    simp only [hm, Bool.not_true] at h
    rw [if_neg (by simp)] at h
    cases hh : hourOfItem x with
    | none => rw [hh] at h; cases h
    | some hr =>
      simp only [hh] at h
      split at h
      next hp => cases h
      next hp =>
        split at h
        next hs => cases h
        next hs =>
          split at h
          next ht => cases h
          next ht =>
            split at h
            next hseat =>
              refine ⟨?_, ?_, ?_, hseat⟩
              · intro fl hfl hfl0
                rw [hfl] at hp
                simp only [ne_eq, Bool.and_eq_true, decide_eq_true_eq,
                  not_and, ge_iff_le] at hp
                by_cases hz : fl = 0
                · exact absurd hz hfl0
                · have := hp (by simpa using hz)
                  omega
              · intro sm hsm hsm0
                rw [hsm] at hs
                simp only [ne_eq, Bool.and_eq_true, decide_eq_true_eq,
                  not_and] at hs
                by_cases hz : sm = 0
                · exact absurd hz hsm0
                · have := hs (by simpa using hz)
                  omega
              · intro b hb
                rw [hb] at ht
                refine ⟨hr, rfl, ?_⟩
                simpa using ht
            next hseat => cases h
  · simp only [hm, Bool.not_false] at h
    rw [if_pos (by simp)] at h
    cases h

/-- Membership in `valid_items`: every collected item went through an
accepting `itemStep` on itself. -/
theorem mem_filterValid {f : Filters} {k : Option SearchKind} :
    ∀ {l v : List Item} {x : Item}, filterValid f k l = some v → x ∈ v →
      itemStep f k x = some (some x) := by
  intro l
  induction l with
  | nil =>
    intro v x hv hx
    cases hv
    cases hx
  | cons y ys ih =>
    intro v x hv hx
    simp only [filterValid] at hv
    cases hstep : itemStep f k y with
    | none => rw [hstep] at hv; cases hv
    | some o =>
      rw [hstep] at hv
      cases o with
      | none => exact ih hv hx
      | some z =>
        cases hrest : filterValid f k ys with
        | none => rw [hrest] at hv; cases hv
        | some v' =>
          rw [hrest] at hv
          simp only [Option.map_some] at hv
          cases hv
          rcases List.mem_cons.mp hx with rfl | hx'
          · exact (itemStep_append_self hstep) ▸ hstep
          · exact ih hrest hx'

/-- Inversion of the whole batch step: a successful filter/sort run is
the sort of a successful `valid_items` construction. -/
theorem filterBatch_inv {f : Filters} {k : Option SearchKind}
    {batch out : List Item} (h : filterBatch f k batch = some out) :
    ∃ valid, filterValid f k batch = some valid ∧ out = sortItems valid := by
  unfold filterBatch at h
  cases hv : filterValid f k batch with
  | none => rw [hv] at h; cases h
  | some valid =>
    rw [hv] at h
    simp only [Option.some_bind] at h
    split at h
    · cases h; exact ⟨valid, rfl, rfl⟩
    · cases h

theorem chunkPagesF_nil : ∀ n, chunkPagesF n [] = [] := by
  intro n
  cases n <;> rfl

theorem chunkPagesF_flatten :
    ∀ (n : Nat) (l : List Item), l.length ≤ n →
      (chunkPagesF n l).flatten = l := by
  intro n
  induction n with
  | zero =>
    intro l h
    have : l = [] := List.eq_nil_of_length_eq_zero (Nat.le_zero.mp h)
    rw [this]
    rfl
  | succ n ih =>
    intro l h
    cases l with
    | nil => rfl
    | cons x xs =>
      simp only [chunkPagesF, List.flatten_cons]
      rw [ih _ (by simp only [List.length_drop, List.length_cons, pageSize] at *; omega)]
      exact List.take_append_drop pageSize (x :: xs)

theorem chunkPagesF_count :
    ∀ (n : Nat) (l : List Item), l.length ≤ n →
      (chunkPagesF n l).length = (l.length + 9) / 10 := by
  intro n
  induction n with
  | zero =>
    intro l h
    have : l = [] := List.eq_nil_of_length_eq_zero (Nat.le_zero.mp h)
    rw [this]
    rfl
  | succ n ih =>
    intro l h
    cases l with
    | nil => rfl
    | cons x xs =>
      simp only [chunkPagesF, List.length_cons]
      rw [ih _ (by simp only [List.length_drop, List.length_cons, pageSize] at *; omega)]
      simp only [List.length_drop, List.length_cons]
      have hx : 0 < xs.length + 1 := Nat.succ_pos _
      show (xs.length + 1 - pageSize + 9) / 10 + 1 = (xs.length + 1 + 9) / 10
      simp only [pageSize]
      omega

theorem chunkPagesF_ne_nil :
    ∀ (n : Nat) (l : List Item), l.length ≤ n → l ≠ [] →
      chunkPagesF n l ≠ [] := by
  intro n l h hne
  cases n with
  | zero => exact absurd (List.eq_nil_of_length_eq_zero (Nat.le_zero.mp h)) hne
  | succ n =>
    cases l with
    | nil => exact absurd rfl hne
    | cons x xs => simp [chunkPagesF]

theorem lastPage_cons_of_ne_nil (p : List Item) :
    ∀ (rest : List (List Item)), rest ≠ [] →
      lastPage (p :: rest) = lastPage rest := by
  intro rest hne
  cases rest with
  | nil => exact absurd rfl hne
  | cons q r => rfl

theorem chunkPagesF_lastPage :
    ∀ (n : Nat) (l : List Item), l.length ≤ n → l ≠ [] →
      (lastPage (chunkPagesF n l)).length =
        (if l.length % 10 = 0 then 10 else l.length % 10) := by
  intro n
  induction n with
  | zero =>
    intro l h hne
    exact absurd (List.eq_nil_of_length_eq_zero (Nat.le_zero.mp h)) hne
  | succ n ih =>
    intro l h hne
    cases l with
    | nil => exact absurd rfl hne
    | cons x xs =>
      simp only [chunkPagesF]
      by_cases hshort : (x :: xs).length ≤ pageSize
      · have hdrop : (x :: xs).drop pageSize = [] := by
          apply List.eq_nil_of_length_eq_zero
          simp only [List.length_drop]
          omega
        rw [hdrop, chunkPagesF_nil]
        show ((x :: xs).take pageSize).length = _
        rw [List.length_take]
        simp only [List.length_cons, pageSize] at hshort ⊢
        rw [Nat.min_eq_right hshort]
        by_cases hmod : (xs.length + 1) % 10 = 0
        · rw [if_pos hmod]
          omega
        · rw [if_neg hmod]
          omega
      · have hdne : (x :: xs).drop pageSize ≠ [] := by
          intro hcon
          have := congrArg List.length hcon
          simp only [List.length_drop, List.length_cons, List.length_nil, pageSize] at this hshort
          omega
        have hdlen : ((x :: xs).drop pageSize).length ≤ n := by
          simp only [List.length_drop, List.length_cons, pageSize] at h hshort ⊢
          omega
        rw [lastPage_cons_of_ne_nil _ _ (chunkPagesF_ne_nil n _ hdlen hdne)]
        rw [ih _ hdlen hdne]
        simp only [List.length_drop, List.length_cons, pageSize] at hshort ⊢
        have h11 : 11 ≤ xs.length + 1 := by omega
        have : (xs.length + 1 - 10) % 10 = (xs.length + 1) % 10 := by omega
        rw [this]

theorem numberFrom_map_fst :
    ∀ (l : List Item) (s : Nat),
      (numberFrom s l).map Prod.fst = List.range' s l.length := by
  intro l
  induction l with
  | nil => intro s; rfl
  | cons x xs ih =>
    intro s
    simp only [numberFrom, List.map_cons, List.length_cons, List.range'_succ, ih]

theorem numberFrom_map_snd :
    ∀ (l : List Item) (s : Nat), (numberFrom s l).map Prod.snd = l := by
  intro l
  induction l with
  | nil => intro s; rfl
  | cons x xs ih => intro s; simp only [numberFrom, List.map_cons, ih]

theorem deliverPages_map_fst :
    ∀ (pages : List (List Item)) (p0 : Nat),
      (deliverPages p0 pages).map Prod.fst =
        List.range' (p0 + 1) pages.flatten.length := by
  intro pages
  induction pages with
  | nil => intro p0; rfl
  | cons pg rest ih =>
    intro p0
    simp only [deliverPages, List.map_append, numberFrom_map_fst, ih,
      List.flatten_cons, List.length_append]
    have := List.range'_append (p0 + 1) pg.length rest.flatten.length 1
    simp only [Nat.mul_one, one_mul] at this
    rw [show p0 + pg.length + 1 = p0 + 1 + pg.length by omega,
      Nat.add_comm pg.length rest.flatten.length]
    exact this

theorem deliverPages_map_snd :
    ∀ (pages : List (List Item)) (p0 : Nat),
      (deliverPages p0 pages).map Prod.snd = pages.flatten := by
  intro pages
  induction pages with
  | nil => intro p0; rfl
  | cons pg rest ih =>
    intro p0
    simp only [deliverPages, List.map_append, numberFrom_map_snd, ih,
      List.flatten_cons]

theorem sendPage_append (a b : List (Nat × Item)) :
    sendPage (a ++ b) = sendPage a ++ sendPage b := by
  induction a with
  | nil => rfl
  | cons p rest ih =>
    obtain ⟨i, x⟩ := p
    simp only [List.cons_append, sendPage]
    cases renderItem x with
    | none => simpa using ih
    | some r =>
      simp only [List.append_eq] at ih ⊢
      rw [ih, List.cons_append]

theorem dstep_exited (lb : DStep) (s : DeliveryState)
    (h : s.exited = true) :
    (dstep lb s).exited = true ∧ (dstep lb s).delivered = s.delivered := by
  cases lb with
  | setSignal => exact ⟨h, rfl⟩
  | finishStop => exact ⟨h, rfl⟩
  | sendOne => simp [dstep, h]
  | loopTop => simp [dstep, h]

/-- A delivery loop that has exited stays exited and delivers nothing
more, whatever further steps are interleaved. -/
theorem runD_exited :
    ∀ (labels : List DStep) (s : DeliveryState), s.exited = true →
      (runD labels s).exited = true ∧
      (runD labels s).delivered = s.delivered := by
  intro labels
  induction labels with
  | nil => intro s h; exact ⟨h, rfl⟩
  | cons lb rest ih =>
    intro s h
    obtain ⟨h1, h2⟩ := dstep_exited lb s h
    obtain ⟨h3, h4⟩ := ih (dstep lb s) h1
    exact ⟨h3, h4.trans h2⟩

/-- At its loop top, with no page in flight, a live delivery loop that
observes the set stop signal exits at once, delivering nothing. -/
theorem dstep_loopTop_stop (s : DeliveryState) (he : s.exited = false)
    (hs : s.sending = []) (hst : s.stopSet = true) :
    dstep .loopTop s = { s with exited := true } := by
  simp only [dstep, he, if_false, hs, hst, if_true, Bool.false_eq_true]

theorem cityScan_snd (ratio : List Char → List Char → Nat)
    (input : List Char) :
    ∀ (cs : List City) (acc : Option City × Nat),
      (cs.foldl (cityScanStep ratio input) acc).2 =
        max acc.2 (maxRatio ratio input cs) := by
  intro cs
  induction cs with
  | nil => intro acc; simp [maxRatio]
  | cons c cs ih =>
    intro acc
    simp only [List.foldl_cons, ih, maxRatio]
    have hstep : (cityScanStep ratio input acc c).2 =
        max acc.2 (max (ratio input (strUpper c.name))
          (ratio input (strUpper c.code))) := by
      simp only [cityScanStep]
      by_cases h1 : ratio input (strUpper c.name) > acc.2
      · rw [if_pos h1]
        by_cases h2 : ratio input (strUpper c.code) > (some c, ratio input (strUpper c.name)).2
        · rw [if_pos h2]; simp at h2 ⊢; omega
        · rw [if_neg h2]; simp at h2 ⊢; omega
      · rw [if_neg h1]
        by_cases h2 : ratio input (strUpper c.code) > acc.2
        · rw [if_pos h2]; simp at h2 ⊢; omega
        · rw [if_neg h2]; simp at h2 ⊢; omega
    rw [hstep]
    omega

theorem cityScan_isSome (ratio : List Char → List Char → Nat)
    (input : List Char) :
    ∀ (cs : List City) (acc : Option City × Nat),
      (0 < acc.2 → acc.1.isSome = true) →
      (0 < (cs.foldl (cityScanStep ratio input) acc).2 →
        (cs.foldl (cityScanStep ratio input) acc).1.isSome = true) := by
  intro cs
  induction cs with
  | nil => intro acc h; exact h
  | cons c cs ih =>
    intro acc h
    simp only [List.foldl_cons]
    apply ih
    intro hpos
    simp only [cityScanStep] at hpos ⊢
    by_cases h1 : ratio input (strUpper c.name) > acc.2
    · rw [if_pos h1] at hpos ⊢
      by_cases h2 : ratio input (strUpper c.code) > (some c, ratio input (strUpper c.name)).2
      · rw [if_pos h2]; rfl
      · rw [if_neg h2]; rfl
    · rw [if_neg h1] at hpos ⊢
      by_cases h2 : ratio input (strUpper c.code) > acc.2
      · rw [if_pos h2]; rfl
      · rw [if_neg h2] at hpos ⊢
        exact h hpos

/-! ### Claim theorems -/

/-- C1: the claim says that with 3 trains on day 1 and 0 on day 2 the
Polling Loop pushes exactly one batch of 3 and the Delivery Loop
delivers page 1 with those items numbered 1 through 3.  Evaluating the
code at that input: the train loop pushes TWO batches of 3 (the
accumulator `self.trains_info` is cleared per cycle, not per date, and
the push guard tests the whole accumulator, so the empty second day
re-pushes the day-1 items), and the Delivery Loop filter discards every
scraper-produced train item (none carries the `trainNumber` key its
kind test requires, nor the `leaveDateTime`/`priceAdult`/`trainNumber`
keys the filter and renderer read), so nothing at all is delivered. -/
theorem c1_train_scenario_eval :
    (collect_trains c1Fetch [0, 1] 1).2 =
      [[tItemA, tItemB, tItemC], [tItemA, tItemB, tItemC]] ∧
    filterBatch noFilters (some .train) [tItemA, tItemB, tItemC] = some [] ∧
    processBatch noFilters (some .train) [] [tItemA, tItemB, tItemC] = [] ∧
    renderItem tItemA = none := by
  decide

/-- C2 counterexample: with one item on the first date and none on the
second, the sweep pushes two batches (the second date re-pushes the
item of the first date, because the push guard tests the never-cleared
accumulator), while the claim predicts a single per-date batch. -/
theorem c2_counterexample :
    (sweep c2Fetch [0, 1] []).2 = [[fItemA], [fItemA]] ∧
    specPerDatePushes c2Fetch [0, 1] = [[fItemA]] ∧
    ([[fItemA], [fItemA]] : List (List Item)) ≠ [[fItemA]] := by
  decide

/-- C2 (amended): during a sweep that starts with an empty accumulator
(each train cycle; the single flight pass), every pushed batch is the
non-empty accumulation of all items fetched for the first k dates of
the sweep — items of earlier dates included — and conversely every date
whose processing leaves the accumulation non-empty pushes exactly that
accumulation; a date is skipped only when the accumulation is empty. -/
theorem c2_pushes_are_accumulations (fetch : Nat → List Item)
    (dates : List Nat) :
    (∀ b ∈ (sweep fetch dates []).2, b ≠ [] ∧
      ∃ k, 0 < k ∧ k ≤ dates.length ∧ b = prefixFetch fetch dates k) ∧
    (∀ k, 0 < k → k ≤ dates.length → prefixFetch fetch dates k ≠ [] →
      prefixFetch fetch dates k ∈ (sweep fetch dates []).2) := by
  constructor
  · intro b hb
    obtain ⟨hne, k, h1, h2, h3⟩ := sweep_mem_pushes fetch dates [] b hb
    exact ⟨hne, k, h1, h2, by simpa using h3⟩
  · intro k h1 h2 h3
    have := sweep_pushes_mem fetch dates [] k h1 h2 (by simpa using h3)
    simpa using this

theorem c2_witness :
    prefixFetch c2Fetch [0, 1] 1 ∈ (sweep c2Fetch [0, 1] []).2 :=
  (c2_pushes_are_accumulations c2Fetch [0, 1]).2 1 (by decide) (by decide)
    (by decide)

/-- C3 counterexample: Stop() runs to completion (signal set, joins
bounded by 5 seconds, queue drained, fresh cleared event stored) while
the delivery loop is blocked inside a page send — the per-item send
loop has no stop check, and after a timed-out join the loop top will
read the fresh cleared event — and the loop then delivers a further
item after Stop() was invoked and completed.  This refutes "no further
items are ever delivered after Stop() is invoked". -/
theorem c3_counterexample :
    c3Start.delivered = [] ∧ c3Start.queue ≠ [] ∧
    (runD [DStep.setSignal, DStep.finishStop, DStep.sendOne]
      c3Start).delivered = [fItemA] := by
  decide

/-- C3 (amended): `clear_search_state` does drain the queue to empty
and reset pendingItems, waitingForMore and searchKind to None (with the
stop event replaced by a fresh cleared one), an exited delivery loop
never delivers again, and a live delivery loop that observes the stop
signal at its loop top with no page in flight exits immediately without
delivering; but items of the page in flight when Stop is invoked can
still be delivered afterwards (see the counterexample). -/
theorem c3_stop_behavior (s : Session) (d : DeliveryState)
    (labels : List DStep) :
    ((clear_search_state s).queue = [] ∧
     (clear_search_state s).pendingFlights = [] ∧
     (clear_search_state s).waitingForMore = false ∧
     (clear_search_state s).currentSearchType = none ∧
     (clear_search_state s).stopSet = false) ∧
    (d.exited = true → (runD labels d).delivered = d.delivered) ∧
    (d.exited = false → d.sending = [] → d.stopSet = true →
      dstep DStep.loopTop d = { d with exited := true }) := by
  refine ⟨⟨rfl, rfl, rfl, rfl, rfl⟩, ?_, ?_⟩
  · intro h
    exact (runD_exited labels d h).2
  · intro he hs hst
    exact dstep_loopTop_stop d he hs hst

theorem c3_witness :
    (runD [DStep.sendOne, DStep.loopTop] c3Exited).delivered =
      c3Exited.delivered ∧
    dstep DStep.loopTop c3Live = { c3Live with exited := true } :=
  ⟨(c3_stop_behavior c3Sess c3Exited [DStep.sendOne, DStep.loopTop]).2.1 rfl,
   (c3_stop_behavior c3Sess c3Live []).2.2 rfl rfl rfl⟩

/-- C4: the output of the Delivery Loop filter/sort step is
non-decreasing in the (departure timestamp, price) key, earliest
departure first with cheaper price as tie-break (`KLE` is the
lexicographic key order on `(leaveDateTime, priceAdult)`). -/
theorem c4_output_sorted (f : Filters) (k : Option SearchKind)
    (batch out : List Item) (h : filterBatch f k batch = some out) :
    out.Pairwise KLE := by
  obtain ⟨valid, hv, rfl⟩ := filterBatch_inv h
  exact sortItems_pairwise valid

theorem c4_witness : ([fItemA, fItemB] : List Item).Pairwise KLE :=
  c4_output_sorted noFilters (some .flight) [fItemB, fItemA]
    [fItemA, fItemB] (by decide)

/-- C5: every item the filter step of the Delivery Loop lets through
respects the configured filters: price strictly below a set price
ceiling, seats at least a set seat floor, and departure hour inside a
set time-of-day bucket (Morning [6,12), Afternoon [12,18), Evening
[18,24), per `bucketMem`).  The callback handlers only ever store
positive limits (`k * 10000000` and `k` for k in 1..5), which the
nonzero hypotheses reflect; Python falsiness would disable a filter
stored as 0. -/
theorem c5_filters_respected (f : Filters) (k : Option SearchKind)
    (batch out : List Item) (x : Item) (h : filterBatch f k batch = some out)
    (hx : x ∈ out) :
    (∀ fl, f.priceLimit = some fl → fl ≠ 0 → x.priceAdult.getD 0 < fl) ∧
    (∀ sm, f.seatMin = some sm → sm ≠ 0 → sm ≤ x.seat.getD 0) ∧
    (∀ b, f.timeFilter = some b →
      ∃ hr, hourOfItem x = some hr ∧ bucketMem b hr = true) := by
  obtain ⟨valid, hv, rfl⟩ := filterBatch_inv h
  have hx' := (sortItems_perm valid).mem_iff.mp hx
  have hacc := itemStep_accept (mem_filterValid hv hx')
  exact ⟨hacc.2.1, hacc.2.2.1, hacc.2.2.2.1⟩

theorem c5_witness :
    fItemA.priceAdult.getD 0 < 20000000 ∧
    2 ≤ fItemA.seat.getD 0 ∧
    (∃ hr, hourOfItem fItemA = some hr ∧
      bucketMem TimeBucket.morning hr = true) :=
  have h := c5_filters_respected filtersW (some .flight) [fItemA, fItemB]
    [fItemA] fItemA (by decide) (by decide)
  ⟨h.1 20000000 rfl (by decide), h.2.1 2 rfl (by decide),
   h.2.2 TimeBucket.morning rfl⟩

/-- C6: delivering a non-empty buffer of N filtered items with the
fixed page size 10 produces ceil(N/10) pages; the last page has N mod
10 items (or 10 when N is a multiple of 10); the numbers attached to
the delivered items continue from the count p0 already delivered this
session (they are exactly p0+1, ..., p0+N in order); and the items
delivered are exactly the buffer, each exactly once. -/
theorem c6_pagination (l : List Item) (p0 : Nat) (hne : l ≠ []) :
    (chunkPages l).length = (l.length + 9) / 10 ∧
    (lastPage (chunkPages l)).length =
      (if l.length % 10 = 0 then 10 else l.length % 10) ∧
    (deliverBuffer p0 l).map Prod.fst = List.range' (p0 + 1) l.length ∧
    (deliverBuffer p0 l).map Prod.snd = l := by
  refine ⟨chunkPagesF_count _ _ le_rfl, chunkPagesF_lastPage _ _ le_rfl hne,
    ?_, ?_⟩
  · rw [deliverBuffer, deliverPages_map_fst, chunkPages,
      chunkPagesF_flatten _ _ le_rfl]
  · rw [deliverBuffer, deliverPages_map_snd, chunkPages,
      chunkPagesF_flatten _ _ le_rfl]

theorem c6_witness :
    (chunkPages c6Buf).length = 3 ∧
    (lastPage (chunkPages c6Buf)).length = 3 ∧
    (deliverBuffer 4 c6Buf).map Prod.fst = List.range' 5 23 ∧
    (deliverBuffer 4 c6Buf).map Prod.snd = c6Buf :=
  have h := c6_pagination c6Buf 4 (by decide)
  ⟨h.1, h.2.1, h.2.2.1, h.2.2.2⟩

/-- C7 counterexample: with the stop signal never set, the flight
polling loop fetches each date exactly once and terminates — its
complete fetch trace over two dates is those two dates, with no
restarted sweep — while the train loop does restart (two cycles fetch
the range twice).  This refutes "restarts the sweep ... for both the
train and the flight polling loops": `collect_flights` has no outer
cycle loop and returns after one pass even though the stop signal was
never set. -/
theorem c7_counterexample :
    (collect_flights c7Fetch [0, 1]).1 = [0, 1] ∧
    (collect_trains c7Fetch [0, 1] 2).1 = [0, 1, 0, 1] := by
  decide

/-- C7 (amended): the train polling loop, until stopped, re-sweeps the
whole date range on every cycle (each further cycle prepends one full
pass over the dates to the fetch trace); the flight polling loop
performs exactly one pass over the date range and then terminates on
its own, even when the stop signal is never set. -/
theorem c7_cycling (fetch : Nat → List Item) (dates : List Nat) (n : Nat) :
    (collect_trains fetch dates (n + 1)).1 =
      dates ++ (collect_trains fetch dates n).1 ∧
    (collect_flights fetch dates).1 = dates := by
  constructor
  · simp only [collect_trains, sweep_trace]
  · exact sweep_trace fetch dates []

/-- C8 counterexample: for a requested date (3) strictly before the
provider reference date (5), the flight fetch issues no provider
request and returns empty, but the train fetch issues the provider
request anyway — `get_trains_for_date` in `src/train_scraper.py`
contains no date comparison at all.  This refutes "this validation
applies to both the train fetch and the flight fetch". -/
theorem c8_counterexample :
    (3 : Nat) < 5 ∧
    (get_flights_for_date 5 c8Provider 3).1 = [] ∧
    (get_trains_for_date c8Provider 3).1 = [3] := by
  decide

/-- C8 (amended): the past-date validation exists only in the flight
fetch: for any date before the provider reference date the flight
fetch returns empty without issuing a provider request, while the
train fetch issues the provider request unconditionally. -/
theorem c8_validation (today : Nat) (provider : Nat → List Item)
    (d : Nat) (h : d < today) :
    get_flights_for_date today provider d = ([], []) ∧
    get_trains_for_date provider d = ([d], provider d) := by
  constructor
  · simp [get_flights_for_date, h]
  · rfl

theorem c8_witness :
    get_flights_for_date 5 c8Provider 3 = ([], []) ∧
    get_trains_for_date c8Provider 3 = ([3], c8Provider 3) :=
  c8_validation 5 c8Provider 3 (by decide)

/-- C9 counterexample: for the text command `origin:th` the best
case-insensitive similarity against any city code or name is exactly
80 (reached on the code THR), which the claim says is accepted
(threshold ≥ 80); the code compares with `highest_ratio > 80` and
rejects, leaving the session origin unchanged. -/
theorem c9_counterexample :
    (bestCity ratioTH ("th".toList.map Char.toUpper)).2 = 80 ∧
    80 ≤ (bestCity ratioTH ("th".toList.map Char.toUpper)).2 ∧
    processOrigin ratioTH "th" "SYZ" = ("SYZ", false) := by
  decide

/-- C9 (amended): an `origin:`/`destination:` city input is accepted
exactly when the best case-insensitive similarity against any city
code or localized name is at least 81 (strictly greater than 80); on
acceptance the session field is set to the code of the best city,
and on rejection it is unchanged. -/
theorem c9_threshold (ratio : List Char → List Char → Nat)
    (cityInput origin : String) :
    ((processOrigin ratio cityInput origin).2 = true ↔
      80 < maxRatio ratio (cityInput.toList.map Char.toUpper) trainCities) ∧
    (∀ c, (bestCity ratio (cityInput.toList.map Char.toUpper)).1 = some c →
      80 < (bestCity ratio (cityInput.toList.map Char.toUpper)).2 →
      processOrigin ratio cityInput origin = (c.code, true)) ∧
    ((processOrigin ratio cityInput origin).2 = false →
      (processOrigin ratio cityInput origin).1 = origin) := by
  have hsnd : (bestCity ratio (cityInput.toList.map Char.toUpper)).2 =
      maxRatio ratio (cityInput.toList.map Char.toUpper) trainCities := by
    rw [bestCity, cityScan_snd]
    exact Nat.max_eq_right (Nat.zero_le _)
  refine ⟨?_, ?_, ?_⟩
  · rw [← hsnd]
    unfold processOrigin
    cases hbm : (bestCity ratio (cityInput.toList.map Char.toUpper)).1 with
    | none =>
      simp only [hbm]
      constructor
      · intro hcon; cases hcon
      · intro hpos
        have := cityScan_isSome ratio (cityInput.toList.map Char.toUpper)
          trainCities (none, 0) (by intro h; cases h)
        rw [show trainCities.foldl
            (cityScanStep ratio (cityInput.toList.map Char.toUpper)) (none, 0)
            = bestCity ratio (cityInput.toList.map Char.toUpper) from rfl]
          at this
        have hsome := this (by omega)
        rw [hbm] at hsome
        cases hsome
    | some c =>
      simp only [hbm]
      by_cases hgt : (bestCity ratio (cityInput.toList.map Char.toUpper)).2 > 80
      · rw [if_pos hgt]
        exact ⟨fun _ => hgt, fun _ => rfl⟩
      · rw [if_neg hgt]
        simp only [Bool.false_eq_true, false_iff]
        omega
  · intro c hc hgt
    unfold processOrigin
    simp only [hc]
    rw [if_pos hgt]
  · intro hrej
    unfold processOrigin at hrej ⊢
    cases hbm : (bestCity ratio (cityInput.toList.map Char.toUpper)).1 with
    | none => simp only [hbm]
    | some c =>
      simp only [hbm] at hrej ⊢
      by_cases hgt : (bestCity ratio (cityInput.toList.map Char.toUpper)).2 > 80
      · rw [if_pos hgt] at hrej; cases hrej
      · rw [if_neg hgt]

theorem c9_witness :
    processOrigin ratio81 "th" "SYZ" = ("THR", true) ∧
    ((processOrigin ratioTH "th" "SYZ").2 = false →
      (processOrigin ratioTH "th" "SYZ").1 = "SYZ") :=
  ⟨(c9_threshold ratio81 "th" "SYZ").2.1 ⟨"THR", "تهران"⟩ (by decide)
      (by decide),
    (c9_threshold ratioTH "th" "SYZ").2.2⟩

theorem itemStep_none_of_badHour {f : Filters} {k : Option SearchKind}
    {x : Item} (hm : matchesKind k x = true) (hh : hourOfItem x = none) :
    itemStep f k x = none := by
  unfold itemStep
  rw [if_neg (by simp [hm])]
  simp only [hh]

theorem filterValid_none_of_mem {f : Filters} {k : Option SearchKind} :
    ∀ {l : List Item} {x : Item}, x ∈ l → matchesKind k x = true →
      hourOfItem x = none → filterValid f k l = none := by
  intro l
  induction l with
  | nil => intro x hx _ _; cases hx
  | cons y ys ih =>
    intro x hx hm hh
    rcases List.mem_cons.mp hx with rfl | hx'
    · simp only [filterValid, itemStep_none_of_badHour hm hh]
    · simp only [filterValid]
      cases hstep : itemStep f k y with
      | none => rfl
      | some o =>
        cases o with
        | none => exact ih hx' hm hh
        | some z => rw [ih hx' hm hh]; rfl

/-- C10: when any item of a dequeued batch that matches the active
search kind has a departure timestamp on which both the ISO parse and
the slicing fallback raise (no T separator, or a missing
`leaveDateTime` value, giving `hourOfItem = none`), the exception is
caught only by the loop-wide handler: the filter step yields nothing
and the whole batch — including every other item in it — is discarded
from the in-memory buffer, rather than only that item being skipped.
Per-item skip-and-continue holds only in the rendering step: a failed
render of one page item leaves the rest of the page delivered. -/
theorem c10_batch_discard (f : Filters) (k : Option SearchKind)
    (batch buf : List Item) (x : Item) (i : Nat)
    (pre post : List (Nat × Item)) :
    (x ∈ batch → matchesKind k x = true → hourOfItem x = none →
      filterBatch f k batch = none ∧ processBatch f k buf batch = buf) ∧
    (renderItem x = none →
      sendPage (pre ++ (i, x) :: post) = sendPage pre ++ sendPage post) := by
  constructor
  · intro hx hm hh
    have hfb : filterBatch f k batch = none := by
      unfold filterBatch
      rw [filterValid_none_of_mem hx hm hh]
      rfl
    refine ⟨hfb, ?_⟩
    unfold processBatch
    rw [hfb]
  · intro hr
    rw [sendPage_append]
    congr 1
    simp only [sendPage, hr]

theorem c10_witness :
    (filterBatch noFilters (some .flight) [fItemA, badLeave] = none ∧
     processBatch noFilters (some .flight) [fItemB] [fItemA, badLeave] =
       [fItemB]) ∧
    sendPage ([(1, fItemA)] ++ (2, badLeave) :: [(3, fItemB)]) =
      sendPage [(1, fItemA)] ++ sendPage [(3, fItemB)] :=
  ⟨(c10_batch_discard noFilters (some .flight) [fItemA, badLeave] [fItemB]
      badLeave 2 [(1, fItemA)] [(3, fItemB)]).1 (by decide) (by decide)
      (by decide),
   (c10_batch_discard noFilters (some .flight) [fItemA, badLeave] [fItemB]
      badLeave 2 [(1, fItemA)] [(3, fItemB)]).2 (by decide)⟩
